import Mathlib

/-!
Shallow embedding of the enarx/vfs in-process virtual filesystem.

The definitions below are translated from the Rust sources:
src/ledger/src/lib.rs, src/src/id.rs, src/memory/src/lib.rs,
src/file/src/lib.rs, src/dir/src/lib.rs, src/keyfs/src/{share,verify,
generate,trust,sign}.rs.  Bytes are modelled as `Nat`, byte buffers as
`List Nat`, u64 values as `Nat` (with the one relevant constant
`u64::MAX = 2 ^ 64 - 1` made explicit), and the asynchronous lock
acquisitions of the source collapse to plain state passing, which is
sound for the single-call properties considered here.
-/

/-- Error kinds (wasi_common error constructors used by the source).
`panic` models a Rust panic/abort, e.g. a `usize` underflow in a debug
build or an out-of-bounds slice index in a release build; it is a crash,
not a returned error value. -/
inductive Err where
  | io
  | inval
  | exist
  | notFound
  | notDir
  | notSup
  | tooBig
  | wouldBlock
  | ilseq
  | perm
  | panic
  deriving DecidableEq, Repr

/-- Per-open handle state of `wasmtime_vfs_memory::State`: the `APPEND`
fd-flag and the cursor `pos`. -/
structure OFState where
  append : Bool
  pos : Nat
  deriving DecidableEq, Repr

/-- The copy loop shared by `OpenFile::read_vectored` /
`read_vectored_at` (src/file/src/lib.rs) and the datagram reads of the
keystore: for each buffer, `len = min(buf.len(), content.len() - pos)`
bytes are copied from `content[pos..]`, and `pos` advances by `len`.
The subtraction `content.len() - pos` is a Rust `usize` subtraction: when
`pos > content.len()` it panics (debug) or the subsequent slice index
panics (release); this is modelled by `Err.panic`.  Returns the
concatenation of the copied bytes and the final position. -/
def rdLoop (content : List Nat) : Nat → List Nat → Except Err (List Nat × Nat)
  | pos, [] => .ok ([], pos)
  | pos, b :: bs =>
    if content.length < pos then .error .panic
    else
      let len := min b (content.length - pos)
      match rdLoop content (pos + len) bs with
      | .ok (rest, p) => .ok ((content.drop pos).take len ++ rest, p)
      | .error e => .error e

/-- `OpenFile::read_vectored` (src/file/src/lib.rs lines 188-205):
requires the read permission, copies from the cursor, advances the
cursor by the number of bytes copied.  Buffers are represented by their
lengths; the result carries the bytes delivered and the new state. -/
def readVectored (rd : Bool) (content : List Nat) (st : OFState)
    (bufLens : List Nat) : Except Err (List Nat × OFState) :=
  if !rd then .error .io
  else
    match rdLoop content st.pos bufLens with
    | .ok (bytes, p) => .ok (bytes, { st with pos := p })
    | .error e => .error e

/-- `OpenFile::read_vectored_at` (src/file/src/lib.rs lines 207-228):
same copy loop starting at `offset` (the `u64 -> usize` conversion never
fails on the 64-bit target); the handle state is not touched. -/
def readVectoredAt (rd : Bool) (content : List Nat) (st : OFState)
    (bufLens : List Nat) (offset : Nat) : Except Err (List Nat × OFState) :=
  if !rd then .error .io
  else
    match rdLoop content offset bufLens with
    | .ok (bytes, _) => .ok (bytes, st)
    | .error e => .error e

/-- The write loop of `OpenFile::write_vectored` (src/file/src/lib.rs
lines 230-258): for each buffer the write position is the content length
when APPEND is set, else the cursor; the content is zero-fill resized to
`pos + buf.len()` when needed, the buffer is copied in, and the cursor
advances only when APPEND is clear.  Returns content, cursor and total. -/
def wrLoop (append : Bool) : List Nat → Nat → List (List Nat) → List Nat × Nat × Nat
  | content, pos, [] => (content, pos, 0)
  | content, pos, b :: bs =>
    let p := if append then content.length else pos
    let grown :=
      if content.length < p + b.length
      then content ++ List.replicate (p + b.length - content.length) 0
      else content
    let content' := grown.take p ++ b ++ grown.drop (p + b.length)
    let pos' := if append then pos else pos + b.length
    let r := wrLoop append content' pos' bs
    (r.1, r.2.1, r.2.2 + b.length)

/-- `OpenFile::write_vectored`: requires write permission, then runs the
write loop with the handle's APPEND flag and cursor. -/
def writeVectored (wr : Bool) (content : List Nat) (st : OFState)
    (bufs : List (List Nat)) : Except Err (List Nat × Nat × OFState) :=
  if !wr then .error .io
  else
    let r := wrLoop st.append content st.pos bufs
    .ok (r.1, r.2.2, { st with pos := r.2.1 })

/-- Allocator state of the live `wasmtime_vfs_ledger` crate
(src/ledger/src/lib.rs): the `BTreeSet` of ids currently allocated and
the start of the remaining `Range` (`next..u64::MAX`). -/
structure LedgerState where
  used : List Nat
  next : Nat
  deriving DecidableEq, Repr

/-- First id `k ≥ next` with `k ∉ used`.  This is what
`range.into_iter().find(|next| !used.contains(next))` returns; the
search is bounded by pigeonhole (among `used.length + 1` consecutive
candidates one is free), the fallback branch is unreachable. -/
def findFrom (used : List Nat) (next : Nat) : Nat :=
  match (List.range (used.length + 1)).find? (fun i => !(used.contains (next + i))) with
  | some i => next + i
  | none => next + used.length + 1

/-- `Ledger::create_device` / `DeviceId::create_inode` of
src/ledger/src/lib.rs: the found id is inserted into the set, and the
range iterator — mutably borrowed by `into_iter` — stays advanced past
it, so the range start becomes `id + 1`. -/
def ledgerCreate (s : LedgerState) : Nat × LedgerState :=
  let id := findFrom s.used s.next
  (id, { used := id :: s.used, next := id + 1 })

/-- `Drop for DeviceId` / `Drop for InodeId` of src/ledger/src/lib.rs:
the id is removed from the set of allocated ids. -/
def ledgerDrop (id : Nat) (s : LedgerState) : LedgerState :=
  { s with used := s.used.erase id }

/-- Allocator state of the copy in src/src/id.rs: the `BTreeSet` of
freed ids (kept sorted ascending, as a BTreeSet iterates) and the range
start. -/
structure IdrsState where
  free : List Nat
  next : Nat
  deriving DecidableEq, Repr

/-- `Ledger::create_device` of src/src/id.rs:
`free.iter().cloned().chain(next).next()` takes the smallest freed id if
any (leaving the range untouched), else the range start; the id is then
removed from the free set. -/
def idrsCreate (s : IdrsState) : Nat × IdrsState :=
  match s.free with
  | [] => (s.next, { s with next := s.next + 1 })
  | m :: rest => (m, { s with free := rest })

/-- Insertion into the sorted free list (BTreeSet::insert). -/
def sortedInsert (id : Nat) : List Nat → List Nat
  | [] => [id]
  | x :: xs =>
    if id < x then id :: x :: xs
    else if id = x then x :: xs
    else x :: sortedInsert id xs

/-- `Drop` of src/src/id.rs: the id returns to the free set. -/
def idrsDrop (id : Nat) (s : IdrsState) : IdrsState :=
  { s with free := sortedInsert id s.free }

/-- A node of the VFS tree.  `dev` is the id of the owning `DeviceId`;
for a directory, `ctor` records whether it carries a child-file
constructor (`create_file.is_some()` in src/dir/src/lib.rs) and
`entries` is the ordered name-to-child `BTreeMap`.  Names are byte
strings, modelled as `List Char`. -/
inductive VNode where
  | dir (dev : Nat) (ctor : Bool) (entries : List (List Char × VNode))
  | file (dev : Nat) (content : List Nat)

/-- Device id of a node (`node.id().device()`, compared by id alone). -/
def vdev : VNode → Nat
  | .dir d _ _ => d
  | .file d _ => d

/-- `BTreeMap::get` on the entry list (keys are unique). -/
def findEntry (es : List (List Char × VNode)) (k : List Char) : Option VNode :=
  match es with
  | [] => none
  | (n, v) :: rest => if n = k then some v else findEntry rest k

/-- `BTreeMap::remove`. -/
def eraseEntry (es : List (List Char × VNode)) (k : List Char) :
    List (List Char × VNode) :=
  match es with
  | [] => []
  | (n, v) :: rest => if n = k then rest else (n, v) :: eraseEntry rest k

/-- Lexicographic order on names, mirroring the `BTreeMap` key order. -/
def lexLt : List Char → List Char → Bool
  | [], [] => false
  | [], _ :: _ => true
  | _ :: _, [] => false
  | a :: as, b :: bs => if a < b then true else if b < a then false else lexLt as bs

/-- `BTreeMap::insert`, keeping entries in ascending name order. -/
def insertEntry (k : List Char) (v : VNode) :
    List (List Char × VNode) → List (List Char × VNode)
  | [] => [(k, v)]
  | (n, w) :: rest =>
    if lexLt k n then (k, v) :: (n, w) :: rest
    else if k = n then (k, v) :: rest
    else (n, w) :: insertEntry k v rest

/-- Follow an address (a list of child names) down from a node.  An
address stands for the `Arc<dyn Node>` at that position of the tree. -/
def lookupAddr : VNode → List (List Char) → Option VNode
  | n, [] => some n
  | .dir _ _ es, k :: ks =>
    match findEntry es k with
    | some c => lookupAddr c ks
    | none => none
  | .file _ _, _ :: _ => none

/-- Replace the value stored under key `k`. -/
def replaceEntry (es : List (List Char × VNode)) (k : List Char) (v : VNode) :
    List (List Char × VNode) :=
  match es with
  | [] => []
  | (n, w) :: rest => if n = k then (n, v) :: rest else (n, w) :: replaceEntry rest k v

/-- Replace the node at an address (used to express a mutation through
an inode's write lock as a pure tree update). -/
def updateAddr : VNode → List (List Char) → VNode → VNode
  | _, [], r => r
  | .dir d c es, k :: ks, r =>
    match findEntry es k with
    | some child => .dir d c (replaceEntry es k (updateAddr child ks r))
    | none => .dir d c es
  | .file d co, _ :: _, _ => .file d co

/-- `Directory::prev` (src/dir/src/lib.rs lines 49-54): the weak parent
upgraded, or the node itself at the root.  In the tree model the parent
of the node at `a` is the node at `a.dropLast`, and the root is its own
parent. -/
def prevAddr (a : List (List Char)) : List (List Char) := a.dropLast

/-- Rust `str::trim_end_matches(SEP)`: strip every trailing separator. -/
def trimSep (p : List Char) : List Char :=
  (p.reverse.dropWhile (fun c => c = '/')).reverse

/-- Rust `str::split(SEP)`: split at every separator; the result is
never empty, and `""` splits to `[""]`. -/
def splitSep : List Char → List (List Char)
  | [] => [[]]
  | c :: cs =>
    if c = '/' then [] :: splitSep cs
    else
      match splitSep cs with
      | s :: ss => (c :: s) :: ss
      | [] => [[c]]

/-- The segment walk of `Directory::get` (src/dir/src/lib.rs lines
72-89).  `selfA` is the address of the node `get` was invoked on, `this`
the address of the current walk position.  Note the source resolves
`".."` as `self.prev()` — against `self`, not against `this`.  The
`lookupAddr _ this = none` case is unreachable (the walk only builds
addresses of live nodes); it is marked `panic`. -/
def dirGetSegs (root : VNode) (selfA : List (List Char)) :
    List (List Char) → List (List Char) → Except Err (List (List Char))
  | this, [] => .ok this
  | this, seg :: rest =>
    if seg = [] ∨ seg = ['.'] then dirGetSegs root selfA this rest
    else if seg = ['.', '.'] then dirGetSegs root selfA (prevAddr selfA) rest
    else
      match lookupAddr root this with
      | some (.dir _ _ es) =>
        match findEntry es seg with
        | some _ => dirGetSegs root selfA (this ++ [seg]) rest
        | none => .error .notFound
      | some (.file _ _) => .error .notDir
      | none => .error .panic

/-- `Directory::get`: trim trailing separators, split, walk. -/
def dirGet (root : VNode) (selfA : List (List Char)) (path : List Char) :
    Except Err (List (List Char)) :=
  dirGetSegs root selfA selfA (splitSep (trimSep path))

/-- Final-segment resolution of `WasiDir::open_dir` for `OpenDir`
(src/dir/src/lib.rs lines 280-290): `""` is invalid, `"."` is self,
`".."` is the parent, a name must resolve to a directory child
(`File::open_dir` answers "not a directory").  The `panic` arms are
unreachable: the handle always wraps a live `Directory`. -/
def openDirFinal (root : VNode) (selfA : List (List Char)) (seg : List Char) :
    Except Err (List (List Char)) :=
  if seg = [] then .error .inval
  else if seg = ['.'] then .ok selfA
  else if seg = ['.', '.'] then .ok (prevAddr selfA)
  else
    match lookupAddr root selfA with
    | some (.dir _ _ es) =>
      match findEntry es seg with
      | some (.dir _ _ _) => .ok (selfA ++ [seg])
      | some (.file _ _) => .error .notDir
      | none => .error .notFound
    | some (.file _ _) => .error .panic
    | none => .error .panic

/-- `WasiDir::open_dir` descent (src/dir/src/lib.rs lines 274-278): the
source peels one separator-free component at a time with `split_once`
and calls `open_dir` on it; iterating `split_once` enumerates exactly
the components of `split(SEP)`, so the descent is a fold of the
final-segment resolution over the split path.  `splitSep` never returns
`[]`, so the `[]` arm is unreachable. -/
def openDirSegs (root : VNode) (selfA : List (List Char)) :
    List (List Char) → Except Err (List (List Char))
  | [] => .error .panic
  | [s] => openDirFinal root selfA s
  | s :: rest =>
    match openDirFinal root selfA s with
    | .ok d => openDirSegs root d rest
    | .error e => .error e

/-- `WasiDir::open_dir` for `OpenDir` on a textual path. -/
def openDirGo (root : VNode) (selfA : List (List Char)) (path : List Char) :
    Except Err (List (List Char)) :=
  openDirSegs root selfA (splitSep path)

/-- The open-flag bits of `OFlags` relevant to `OpenDir::open_file`. -/
structure OFl where
  create : Bool
  directory : Bool
  excl : Bool
  trunc : Bool
  deriving DecidableEq, Repr

/-- `VALID_OFLAGS` of src/dir/src/lib.rs lines 186-195: the eight
accepted bitsets. -/
def valid8 : List OFl :=
  [⟨false, false, false, false⟩, ⟨true, false, false, false⟩,
   ⟨false, true, false, false⟩, ⟨false, false, false, true⟩,
   ⟨true, true, false, false⟩, ⟨true, false, true, false⟩,
   ⟨true, false, false, true⟩, ⟨true, true, true, false⟩]

/-- The essence of a returned `WasiFile` handle: the address of the
opened node and the read/write permission bits it carries. -/
structure OpenRes where
  addr : List (List Char)
  rd : Bool
  wr : Bool
  deriving DecidableEq, Repr

/-- `Node::open_file` dispatch: `Directory::open_file` ignores the `dir`
argument and always succeeds; `File::open_file` rejects `dir = true`
with "not a directory". -/
def nodeOpenFile (n : VNode) (addr : List (List Char)) (odir rd wr : Bool) :
    Except Err OpenRes :=
  match n with
  | .dir _ _ _ => .ok ⟨addr, rd, wr⟩
  | .file _ _ => if odir then .error .notDir else .ok ⟨addr, rd, wr⟩

/-- Final-segment handling of `OpenDir::open_file` (src/dir/src/lib.rs
lines 205-271): validate the flag bitset, require write for TRUNCATE,
then resolve the final segment exactly as the source match does.  Note
that only the literal segment `"."` is guarded by the EXCLUSIVE/EXISTS
and TRUNCATE/IO arms; the segment `""` falls through to the `"." | ""`
arm and always opens the directory itself.  The result is the opened
handle and the (possibly mutated) tree. -/
def openFileFinal (root : VNode) (selfA : List (List Char)) (seg : List Char)
    (of : OFl) (rd wr : Bool) : Except Err (OpenRes × VNode) :=
  if of ∈ valid8 then
    if of.trunc && !wr then .error .inval
    else
      let odir := of.directory
      if seg = ['.'] then
        if of.excl then .error .exist
        else if of.trunc then .error .io
        else .ok (⟨selfA, rd, wr⟩, root)
      else if seg = [] then .ok (⟨selfA, rd, wr⟩, root)
      else if seg = ['.', '.'] then
        if of.excl then .error .exist
        else if of.trunc then .error .io
        else
          match lookupAddr root (prevAddr selfA) with
          | some n =>
            match nodeOpenFile n (prevAddr selfA) odir rd wr with
            | .ok res => .ok (res, root)
            | .error e => .error e
          | none => .error .panic
      else
        match lookupAddr root selfA with
        | some (.dir dev ctor es) =>
          match findEntry es seg with
          | some child =>
            if of.create && of.excl then .error .exist
            else if of.trunc then
              match child with
              | .file d _ =>
                if odir then .error .notDir
                else
                  .ok (⟨selfA ++ [seg], false, true⟩,
                    updateAddr root (selfA ++ [seg]) (.file d []))
              | .dir _ _ _ => .error .notSup
            else
              match nodeOpenFile child (selfA ++ [seg]) odir rd wr with
              | .ok res => .ok (res, root)
              | .error e => .error e
          | none =>
            if of.create then
              if of.directory then
                .ok (⟨selfA ++ [seg], rd, wr⟩,
                  updateAddr root selfA
                    (.dir dev ctor (insertEntry seg (.dir dev ctor []) es)))
              else if ctor then
                .ok (⟨selfA ++ [seg], rd, wr⟩,
                  updateAddr root selfA
                    (.dir dev ctor (insertEntry seg (.file dev []) es)))
              else .error .notSup
            else .error .notFound
        | some (.file _ _) => .error .panic
        | none => .error .panic
  else .error .inval

/-- `OpenDir::open_file` (src/dir/src/lib.rs lines 177-272): descend
through the non-final components with `open_dir`, then apply the
final-segment handling. -/
def openFileSegs (root : VNode) (selfA : List (List Char)) (of : OFl)
    (rd wr : Bool) : List (List Char) → Except Err (OpenRes × VNode)
  | [] => .error .panic
  | [s] => openFileFinal root selfA s of rd wr
  | s :: rest =>
    match openDirFinal root selfA s with
    | .ok d => openFileSegs root d of rd wr rest
    | .error e => .error e

/-- `OpenDir::open_file` on a textual path. -/
def openFileGo (root : VNode) (selfA : List (List Char)) (path : List Char)
    (of : OFl) (rd wr : Bool) : Except Err (OpenRes × VNode) :=
  openFileSegs root selfA of rd wr (splitSep path)

/-- Final-segment handling of `OpenDir::remove_dir` (src/dir/src/lib.rs
lines 379-404): reject reserved segments, look up the child under the
parent's write lock, refuse a cross-device child with "io", refuse a
non-directory child with "not a directory", and then — as the source is
written — return "io" when the child's map IS empty and remove the
child when it is not. -/
def removeDirFinal (root : VNode) (selfA : List (List Char)) (seg : List Char) :
    Except Err VNode :=
  if seg = [] ∨ seg = ['.'] ∨ seg = ['.', '.'] then .error .inval
  else
    match lookupAddr root selfA with
    | some (.dir dev ctor es) =>
      match findEntry es seg with
      | none => .error .notFound
      | some c =>
        if dev ≠ vdev c then .error .io
        else
          match c with
          | .file _ _ => .error .notDir
          | .dir _ _ ces =>
            if ces.isEmpty then .error .io
            else .ok (updateAddr root selfA (.dir dev ctor (eraseEntry es seg)))
    | some (.file _ _) => .error .panic
    | none => .error .panic

/-- `OpenDir::remove_dir` (src/dir/src/lib.rs lines 373-405): descend
with `open_dir`, then apply the final-segment handling. -/
def removeDirSegs (root : VNode) (selfA : List (List Char)) :
    List (List Char) → Except Err VNode
  | [] => .error .panic
  | [s] => removeDirFinal root selfA s
  | s :: rest =>
    match openDirFinal root selfA s with
    | .ok d => removeDirSegs root d rest
    | .error e => .error e

/-- `OpenDir::remove_dir` on a textual path. -/
def removeDir (root : VNode) (selfA : List (List Char)) (path : List Char) :
    Except Err VNode :=
  removeDirSegs root selfA (splitSep path)

/-- `u64::MAX`, the sentinel offset of the sign/verify protocol. -/
def UMAX : Nat := 2 ^ 64 - 1

/-- `OpenVerify::write_vectored` (src/keyfs/src/verify.rs lines
142-151): every buffer is absorbed into the running digest; the digest
state is modelled extensionally as the list of absorbed bytes
(`D::new()` is `[]`, `update` appends).  Returns the total and the new
digest state. -/
def verifyWriteVectored (hash : List Nat) (bufs : List (List Nat)) :
    Nat × List Nat :=
  ((bufs.map List.length).sum, hash ++ bufs.flatten)

/-- `OpenVerify::write_vectored_at` (src/keyfs/src/verify.rs lines
153-174), generic over the signature parser `S::from_bytes` and the
key's `verify_digest`: offset must be `u64::MAX`, exactly one buffer,
the bytes must parse as a signature, then the CLONED digest is
verified.  The second component is the handle's digest state after the
call: the source never reassigns `self.hash`, so it is returned
unchanged on every branch. -/
def verifyWriteVectoredAt (fromBytes : List Nat → Option (List Nat))
    (verif : List Nat → List Nat → Bool) (hash : List Nat)
    (bufs : List (List Nat)) (offset : Nat) : Except Err Nat × List Nat :=
  if offset ≠ UMAX then (.error .inval, hash)
  else
    match bufs with
    | [b] =>
      match fromBytes b with
      | none => (.error .inval, hash)
      | some sig =>
        if verif hash sig then (.ok b.length, hash) else (.error .ilseq, hash)
    | _ => (.error .inval, hash)

/-- `OpenShare::read_vectored` (src/keyfs/src/share.rs lines 104-120):
if the stored wire encoding does not fit in the buffers, fail with
"message too big" before copying anything; otherwise run the copy loop
from position 0.  The handle state is never touched. -/
def shareRead (content : List Nat) (bufLens : List Nat) :
    Except Err (List Nat) :=
  if bufLens.sum < content.length then .error .tooBig
  else
    match rdLoop content 0 bufLens with
    | .ok (bytes, _) => .ok bytes
    | .error e => .error e

/-- `OpenGenerate::read_vectored` (src/keyfs/src/generate.rs lines
353-376) and the textually identical `OpenTrust::read_vectored`
(src/keyfs/src/trust.rs lines 259-282): `Vec::pop` takes the LAST
queued UUID; its textual bytes are copied into the buffers; if they do
not all fit the UUID is pushed back and the call fails with "message
too big"; an empty queue yields "would block".  The queue is the second
component of the result. -/
def factoryRead (q : List (List Nat)) (bufLens : List Nat) :
    Except Err (List Nat) × List (List Nat) :=
  match q.getLast? with
  | none => (.error .wouldBlock, q)
  | some uuid =>
    let q' := q.dropLast
    match rdLoop uuid 0 bufLens with
    | .ok (bytes, total) =>
      if total < uuid.length then (.error .tooBig, q' ++ [uuid])
      else (.ok bytes, q')
    | .error e => (.error e, q')

/-- File types that appear in the sources' `Filestat` values. -/
inductive FT where
  | directory
  | regularFile
  | socketDgram
  deriving DecidableEq, Repr

/-- The `Filestat` fields the claims speak about.  The remaining fields
(device and inode ids, `nlink` from `Arc::strong_count`, timestamps) are
runtime values passed through unchanged and are omitted here. -/
structure FStat where
  filetype : FT
  size : Nat
  deriving DecidableEq, Repr

/-- `OpenFile::get_filestat` (src/file/src/lib.rs lines 133-146):
regular file, size is the byte length of the content. -/
def openFileGetFilestat (content : List Nat) : FStat :=
  ⟨.regularFile, content.length⟩

/-- `WasiDir::get_filestat` for `OpenDir` (src/dir/src/lib.rs lines
444-457): directory, size 0. -/
def openDirDirGetFilestat (_es : List (List Char × VNode)) : FStat :=
  ⟨.directory, 0⟩

/-- `WasiFile::get_filestat` for `OpenDir` (src/dir/src/lib.rs lines
565-578): directory, but size is `ilock.content.len()` — the number of
children. -/
def openDirFileGetFilestat (es : List (List Char × VNode)) : FStat :=
  ⟨.directory, es.length⟩

/-- `OpenShare::get_filestat` (src/keyfs/src/share.rs lines 89-102):
datagram pseudo-file, but size is `ilock.content.len()` — the byte
length of the stored wire encoding. -/
def openShareGetFilestat (content : List Nat) : FStat :=
  ⟨.socketDgram, content.length⟩

/-- `OpenGenerate::get_filestat` (src/keyfs/src/generate.rs lines
325-338): datagram pseudo-file, size 0. -/
def openGenerateGetFilestat (_q : List (List Nat)) : FStat :=
  ⟨.socketDgram, 0⟩

/-- `OpenTrust::get_filestat` (src/keyfs/src/trust.rs lines 231-244):
datagram pseudo-file, size 0. -/
def openTrustGetFilestat (_q : List (List Nat)) : FStat :=
  ⟨.socketDgram, 0⟩

/-- `OpenVerify::get_filestat` (src/keyfs/src/verify.rs lines 119-132):
datagram pseudo-file, size 0. -/
def openVerifyGetFilestat : FStat :=
  ⟨.socketDgram, 0⟩

/-- `OpenSign::get_filestat` (src/keyfs/src/sign.rs lines 118-131):
datagram pseudo-file, size 0. -/
def openSignGetFilestat : FStat :=
  ⟨.socketDgram, 0⟩

theorem rdLoop_ok (content : List Nat) :
    ∀ (bufLens : List Nat) (pos : Nat), pos ≤ content.length →
    rdLoop content pos bufLens =
      .ok ((content.drop pos).take (min bufLens.sum (content.length - pos)),
        pos + min bufLens.sum (content.length - pos)) := by
  intro bufLens
  induction bufLens with
  | nil =>
    intro pos h
    simp [rdLoop]
  | cons b bs ih =>
    intro pos h
    have hnp : ¬ content.length < pos := by omega
    have h2 : pos + min b (content.length - pos) ≤ content.length := by omega
    simp only [rdLoop, if_neg hnp, ih _ h2]
    simp only [List.sum_cons, Except.ok.injEq, Prod.mk.injEq]
    have harith : min b (content.length - pos) +
        min bs.sum (content.length - (pos + min b (content.length - pos))) =
        min (b + bs.sum) (content.length - pos) := by omega
    refine ⟨?_, by omega⟩
    rw [← harith, List.take_add, List.drop_drop]

theorem wrSplice (c b : List Nat) :
    (if c.length < c.length + b.length
      then c ++ List.replicate (c.length + b.length - c.length) 0 else c).take c.length ++ b ++
    (if c.length < c.length + b.length
      then c ++ List.replicate (c.length + b.length - c.length) 0 else c).drop
        (c.length + b.length) = c ++ b := by
  rcases b with _ | ⟨x, xs⟩
  · simp
  · have hsub : c.length + (x :: xs).length - c.length = (x :: xs).length := by omega
    rw [hsub]
    split
    · rw [List.take_left]
      have hlen : (c ++ List.replicate (x :: xs).length 0).length =
          c.length + (x :: xs).length := by simp
      have hdrop : (c ++ List.replicate (x :: xs).length 0).drop
          (c.length + (x :: xs).length) = [] := by
        rw [← hlen, List.drop_length]
      rw [hdrop, List.append_nil]
    · next h => exact absurd (by simp) h

theorem wrLoop_from_end (bufs : List (List Nat)) :
    ∀ (c : List Nat) (pos : Nat), pos = c.length →
    wrLoop false c pos bufs =
      (c ++ bufs.flatten, c.length + (bufs.map List.length).sum,
        (bufs.map List.length).sum) := by
  induction bufs with
  | nil =>
    intro c pos h
    simp [wrLoop, h]
  | cons b bs ih =>
    intro c pos h
    subst h
    simp only [wrLoop, Bool.false_eq_true, if_false]
    rw [wrSplice c b]
    rw [ih (c ++ b) (c.length + b.length) (by simp)]
    simp [List.append_assoc]
    omega

def cT1 : VNode := .dir 0 true [(['d'], .dir 0 true [])]

def cT2 : VNode := .dir 0 true [(['d'], .dir 0 true [(['x'], .file 0 [])])]

/-- C1: the claim states that `remove_dir` succeeds exactly on an empty
same-device child directory and refuses a non-empty one.  The source
(src/dir/src/lib.rs lines 396-399) has the condition inverted — it
returns the "io" error when the child's map `is_empty()` and removes the
child otherwise — contradicting its own comment that "POSIX requires
that a directory be empty before it can be removed".  Evaluating the
embedding: removing the empty same-device child directory `d` fails with
"io", while removing a non-empty child directory succeeds and erases it. -/
theorem c1_remove_dir_inverted_empty_check :
    removeDir cT1 [] ['d'] = .error .io ∧
    removeDir cT2 [] ['d'] = .ok (.dir 0 true []) :=
  ⟨rfl, rfl⟩

/-- C2: the claim states a dropped id becomes eligible again and the
next allocation returns the smallest free id.  In the live ledger crate
(src/ledger/src/lib.rs), `range.into_iter().find(..)` advances the
mutably borrowed range past every returned id, and the set holds the
LIVE ids, so a dropped id below the range start is never allocated
again: create (id 0), drop, create yields 1, not 0.  The copy in
src/src/id.rs keeps the FREED ids in the set and prefers its smallest
element, realizing exactly the claimed behavior: the same trace yields 0. -/
theorem c2_ledger_id_reuse_trace :
    (ledgerCreate ⟨[], 0⟩).1 = 0 ∧
    (ledgerCreate (ledgerDrop 0 (ledgerCreate ⟨[], 0⟩).2)).1 = 1 ∧
    (idrsCreate ⟨[], 0⟩).1 = 0 ∧
    (idrsCreate (idrsDrop 0 (idrsCreate ⟨[], 0⟩).2)).1 = 0 :=
  ⟨rfl, rfl, rfl, rfl⟩

/-- C6: the claim states a read with the cursor or offset at or beyond
the content length returns 0 bytes rather than failing.  At the content
length the code indeed returns 0 bytes; strictly beyond it, the `usize`
subtraction `content.len() - pos` in `read_vectored` /
`read_vectored_at` (src/file/src/lib.rs lines 198 and 221) underflows
and the call panics instead of returning 0 (reachable via `seek` past
the end). -/
theorem c6_read_at_or_beyond_eof :
    readVectored true [1, 2] ⟨false, 2⟩ [5] = .ok ([], ⟨false, 2⟩) ∧
    readVectored true [1, 2] ⟨false, 3⟩ [5] = .error .panic ∧
    readVectoredAt true [1, 2] ⟨false, 0⟩ [5] 2 = .ok ([], ⟨false, 0⟩) ∧
    readVectoredAt true [1, 2] ⟨false, 0⟩ [5] 3 = .error .panic :=
  ⟨rfl, rfl, rfl, rfl⟩

/-- C3 counterexample: the claim states that a successful sentinel write
resets the handle's running-digest state.  With an always-accepting
verifier and digest state `[1,2,3]`, the call succeeds but the handle's
digest state is still `[1,2,3]`, not the fresh `[]`: the source never
reassigns `self.hash`, it verifies a clone. -/
theorem c3_verify_digest_not_reset :
    verifyWriteVectoredAt (fun b => some b) (fun _ _ => true) [1, 2, 3] [[9]] UMAX
      = (.ok 1, [1, 2, 3]) ∧ ([1, 2, 3] : List Nat) ≠ [] :=
  ⟨rfl, by decide⟩

/-- C3 (amended): on a verify handle, `write_vectored_at` with offset
`u64::MAX` and exactly one buffer treats the buffer as a candidate
signature over the running digest: on success it returns the buffer
length and leaves the running digest unchanged (the source verifies a
clone and never resets the handle state); a failed verification yields
"illegal byte sequence"; signature bytes rejected by the parser yield
invalid argument; any other offset or a multi-buffer write yields
invalid argument.  In every case the digest state is unchanged. -/
theorem c3_verify_sentinel_write (fromBytes : List Nat → Option (List Nat))
    (verif : List Nat → List Nat → Bool) (hash : List Nat) :
    (∀ (bufs : List (List Nat)) (off : Nat), off ≠ UMAX →
      verifyWriteVectoredAt fromBytes verif hash bufs off = (.error .inval, hash)) ∧
    (∀ (bufs : List (List Nat)), bufs.length ≠ 1 →
      verifyWriteVectoredAt fromBytes verif hash bufs UMAX = (.error .inval, hash)) ∧
    (∀ b, fromBytes b = none →
      verifyWriteVectoredAt fromBytes verif hash [b] UMAX = (.error .inval, hash)) ∧
    (∀ b sig, fromBytes b = some sig → verif hash sig = true →
      verifyWriteVectoredAt fromBytes verif hash [b] UMAX = (.ok b.length, hash)) ∧
    (∀ b sig, fromBytes b = some sig → verif hash sig = false →
      verifyWriteVectoredAt fromBytes verif hash [b] UMAX = (.error .ilseq, hash)) := by
  refine ⟨?_, ?_, ?_, ?_, ?_⟩
  · intro bufs off h
    simp [verifyWriteVectoredAt, h]
  · intro bufs h
    rcases bufs with _ | ⟨b, _ | ⟨c, rest⟩⟩
    · simp [verifyWriteVectoredAt]
    · simp at h
    · simp [verifyWriteVectoredAt]
  · intro b h
    simp [verifyWriteVectoredAt, h]
  · intro b sig h hv
    simp [verifyWriteVectoredAt, h, hv]
  · intro b sig h hv
    simp [verifyWriteVectoredAt, h, hv]

theorem c3_verify_sentinel_write_witness :
    verifyWriteVectoredAt (fun b => some b) (fun _ _ => true) [1, 2] [[3], [4]] 5
      = (.error .inval, [1, 2]) ∧
    verifyWriteVectoredAt (fun b => some b) (fun _ _ => false) [1, 2] [[3]] UMAX
      = (.error .ilseq, [1, 2]) :=
  ⟨(c3_verify_sentinel_write (fun b => some b) (fun _ _ => true) [1, 2]).1
      [[3], [4]] 5 (by decide),
   (c3_verify_sentinel_write (fun b => some b) (fun _ _ => false) [1, 2]).2.2.2.2
      [3] [3] rfl rfl⟩

/-- C7 counterexample: the claim states the `Filestat` size is 0 for
directories and pseudo-files on every kind of handle.  The share
pseudo-file handle reports the byte length of its stored wire encoding
(src/keyfs/src/share.rs line 97), and a directory opened as a file
handle reports its number of children (src/dir/src/lib.rs line 573). -/
theorem c7_filestat_size_counterexample :
    openShareGetFilestat [1, 2, 3] = ⟨.socketDgram, 3⟩ ∧
    openDirFileGetFilestat [(['a'], .file 0 [])] = ⟨.directory, 1⟩ ∧
    (3 : Nat) ≠ 0 ∧ (1 : Nat) ≠ 0 :=
  ⟨rfl, rfl, by decide, by decide⟩

/-- C7 (amended): the `Filestat` size is the content byte length for
regular-file handles; 0 for a directory handle's directory-side stat and
for the generate, trust, sign and verify pseudo-files; the share
pseudo-file reports the byte length of its stored wire encoding; and a
directory opened as a file handle reports its number of children. -/
theorem c7_filestat_sizes (content : List Nat) (es : List (List Char × VNode))
    (q : List (List Nat)) :
    openFileGetFilestat content = ⟨.regularFile, content.length⟩ ∧
    openDirDirGetFilestat es = ⟨.directory, 0⟩ ∧
    openDirFileGetFilestat es = ⟨.directory, es.length⟩ ∧
    openShareGetFilestat content = ⟨.socketDgram, content.length⟩ ∧
    openGenerateGetFilestat q = ⟨.socketDgram, 0⟩ ∧
    openTrustGetFilestat q = ⟨.socketDgram, 0⟩ ∧
    openVerifyGetFilestat = ⟨.socketDgram, 0⟩ ∧
    openSignGetFilestat = ⟨.socketDgram, 0⟩ :=
  ⟨rfl, rfl, rfl, rfl, rfl, rfl, rfl, rfl⟩

/-- C10: a share read either delivers the entire stored wire encoding
(when it fits the buffers) or fails with "message too big" before any
copying, leaving the stored payload untouched; a factory (generate or
trust) read whose buffers cannot hold the queued UUID re-enqueues it —
the queue after the failing call is exactly the queue before it, so the
UUID remains readable — and fails with "message too big"; a factory read
from an empty queue fails with "would block". -/
theorem c10_keystore_atomicity :
    (∀ (content bufLens : List Nat), bufLens.sum < content.length →
      shareRead content bufLens = .error .tooBig) ∧
    (∀ (content bufLens : List Nat), content.length ≤ bufLens.sum →
      shareRead content bufLens = .ok content) ∧
    (∀ (q : List (List Nat)) (uuid : List Nat) (bufLens : List Nat),
      bufLens.sum < uuid.length →
      factoryRead (q ++ [uuid]) bufLens = (.error .tooBig, q ++ [uuid])) ∧
    (∀ (q : List (List Nat)) (uuid : List Nat) (bufLens : List Nat),
      uuid.length ≤ bufLens.sum →
      factoryRead (q ++ [uuid]) bufLens = (.ok uuid, q)) ∧
    (∀ bufLens : List Nat, factoryRead [] bufLens = (.error .wouldBlock, [])) := by
  refine ⟨?_, ?_, ?_, ?_, ?_⟩
  · intro content bufLens h
    simp [shareRead, h]
  · intro content bufLens h
    have hn : ¬ bufLens.sum < content.length := by omega
    simp only [shareRead, if_neg hn]
    rw [rdLoop_ok content bufLens 0 (Nat.zero_le _)]
    simp
    omega
  · intro q uuid bufLens h
    simp only [factoryRead, List.getLast?_concat, List.dropLast_concat]
    rw [rdLoop_ok uuid bufLens 0 (Nat.zero_le _)]
    simp
    omega
  · intro q uuid bufLens h
    have hn2 : ¬ bufLens.sum < uuid.length := by omega
    have hmin : min bufLens.sum uuid.length = uuid.length := by omega
    simp only [factoryRead, List.getLast?_concat, List.dropLast_concat]
    rw [rdLoop_ok uuid bufLens 0 (Nat.zero_le _)]
    simp [hn2, hmin]
  · intro bufLens
    rfl

theorem c10_keystore_atomicity_witness :
    shareRead [1, 2, 3] [2] = .error .tooBig ∧
    shareRead [1, 2, 3] [2, 2] = .ok [1, 2, 3] ∧
    factoryRead [[7, 8, 9]] [2] = (.error .tooBig, [[7, 8, 9]]) ∧
    factoryRead [[7, 8, 9]] [3] = (.ok [7, 8, 9], []) ∧
    factoryRead [] [9] = (.error .wouldBlock, []) :=
  ⟨c10_keystore_atomicity.1 [1, 2, 3] [2] (by decide),
   c10_keystore_atomicity.2.1 [1, 2, 3] [2, 2] (by decide),
   c10_keystore_atomicity.2.2.1 [] [7, 8, 9] [2] (by decide),
   c10_keystore_atomicity.2.2.2.1 [] [7, 8, 9] [3] (by decide),
   c10_keystore_atomicity.2.2.2.2 [9]⟩

/-- C8: writing a byte sequence `B`, split into any buffers `S`, at
cursor 0 to an empty regular file yields content exactly `B` with the
write cursor at `len B`; a subsequent `read_vectored` from cursor 0 with
the matching buffer sizes delivers exactly `B` and leaves the cursor at
`len B`; and `read_vectored_at(bufs, k)` for `k ≤ len B` (buffers large
enough for the remainder) delivers `B[k..]` whatever the handle's
cursor, which it leaves unchanged. -/
theorem c8_file_round_trip (B : List Nat) (S : List (List Nat))
    (hS : S.flatten = B) (k : Nat) (hk : k ≤ B.length) (bufLens : List Nat)
    (hcap : B.length - k ≤ bufLens.sum) (st : OFState) :
    writeVectored true [] ⟨false, 0⟩ S = .ok (B, B.length, ⟨false, B.length⟩) ∧
    readVectored true B ⟨false, 0⟩ (S.map List.length) = .ok (B, ⟨false, B.length⟩) ∧
    readVectoredAt true B st bufLens k = .ok (B.drop k, st) := by
  have hsum : (S.map List.length).sum = B.length := by
    rw [← hS]
    exact (List.length_flatten S).symm
  refine ⟨?_, ?_, ?_⟩
  · simp only [writeVectored, wrLoop_from_end S [] 0 rfl]
    simp [hS, hsum]
  · simp only [readVectored]
    rw [rdLoop_ok B (S.map List.length) 0 (Nat.zero_le _)]
    simp [hsum]
  · have hmin : min bufLens.sum (B.length - k) = B.length - k := by omega
    have htake : (B.drop k).take (B.length - k) = B.drop k := by
      rw [← List.length_drop]
      exact List.take_length _
    simp only [readVectoredAt]
    rw [rdLoop_ok B bufLens k hk]
    simp [hmin, htake]

theorem c8_file_round_trip_witness :
    writeVectored true [] ⟨false, 0⟩ [[1], [2, 3]] = .ok ([1, 2, 3], 3, ⟨false, 3⟩) ∧
    readVectored true [1, 2, 3] ⟨false, 0⟩ [1, 2] = .ok ([1, 2, 3], ⟨false, 3⟩) ∧
    readVectoredAt true [1, 2, 3] ⟨true, 7⟩ [5] 1 = .ok ([2, 3], ⟨true, 7⟩) :=
  c8_file_round_trip [1, 2, 3] [[1], [2, 3]] rfl 1 (by decide) [5] (by decide) ⟨true, 7⟩

theorem trimSep_snoc_sep (p : List Char) : trimSep (p ++ ['/']) = trimSep p := by
  simp [trimSep]

theorem trimSep_snoc_ne (xs : List Char) (c : Char) (hc : c ≠ '/') :
    trimSep (xs ++ [c]) = xs ++ [c] := by
  simp [trimSep, List.dropWhile, hc]

theorem trimSep_append_no_sep (xs b : List Char) (hb : b ≠ []) (hnb : '/' ∉ b) :
    trimSep (xs ++ b) = xs ++ b := by
  rcases List.eq_nil_or_concat b with h | ⟨L, c, h⟩
  · exact absurd h hb
  · rw [List.concat_eq_append] at h
    subst h
    have hc : c ≠ '/' := by
      intro h
      exact hnb (by simp [h])
    rw [← List.append_assoc]
    exact trimSep_snoc_ne (xs ++ L) c hc

theorem splitSep_sep_append (a rest : List Char) (ha : '/' ∉ a) :
    splitSep (a ++ '/' :: rest) = a :: splitSep rest := by
  induction a with
  | nil => rfl
  | cons c cs ih =>
    have hc : ¬ c = '/' := fun h => ha (h ▸ List.mem_cons_self c cs)
    have ih2 := ih (fun h => ha (List.mem_cons_of_mem c h))
    simp only [List.cons_append, splitSep, if_neg hc, List.append_eq, ih2]

theorem splitSep_no_sep (a : List Char) (ha : '/' ∉ a) : splitSep a = [a] := by
  induction a with
  | nil => rfl
  | cons c cs ih =>
    have hc : ¬ c = '/' := fun h => ha (h ▸ List.mem_cons_self c cs)
    have ih2 := ih (fun h => ha (List.mem_cons_of_mem c h))
    simp only [splitSep, if_neg hc, ih2]

theorem dirGetSegs_append (root : VNode) (selfA : List (List Char)) :
    ∀ (xs this ys : List (List Char)),
    dirGetSegs root selfA this (xs ++ ys) =
      match dirGetSegs root selfA this xs with
      | .ok t => dirGetSegs root selfA t ys
      | .error e => .error e := by
  intro xs
  induction xs with
  | nil => intro this ys; rfl
  | cons x xs ih =>
    intro this ys
    simp only [List.cons_append, dirGetSegs]
    by_cases h1 : x = [] ∨ x = ['.']
    · simp only [if_pos h1]
      exact ih this ys
    · simp only [if_neg h1]
      by_cases h2 : x = ['.', '.']
      · simp only [if_pos h2]
        exact ih (prevAddr selfA) ys
      · simp only [if_neg h2]
        cases hl : lookupAddr root this with
        | none => rfl
        | some n =>
          cases n with
          | dir d c es =>
            dsimp only
            cases hf : findEntry es x with
            | none => rfl
            | some c2 => exact ih (this ++ [x]) ys
          | file d co => rfl

theorem dirGetSegs_skip_dot (root : VNode) (selfA : List (List Char))
    (xs this ys : List (List Char)) :
    dirGetSegs root selfA this (xs ++ ['.'] :: ys) =
      dirGetSegs root selfA this (xs ++ ys) := by
  rw [dirGetSegs_append root selfA xs this (['.'] :: ys),
    dirGetSegs_append root selfA xs this ys]
  cases dirGetSegs root selfA this xs with
  | ok t => rfl
  | error e => rfl

def cT4 : VNode := .dir 0 true [(['d'], .dir 0 true [(['a'], .file 0 [])])]

/-- C4 counterexample: in the tree with root `{d: {a: file}}`, take
`N` to be the directory at address `[d]`.  Its segment `a` resolves to a
child of `N`, yet `N.get("a/..")` returns the ROOT — the parent of `N` —
not `N`: the source resolves `".."` as `self.prev()` against the node
`get` was invoked on, not against the current walk position, so after
descending into `a` the `".."` step jumps to the parent of `N`. -/
theorem c4_dotdot_counterexample :
    dirGet cT4 [['d']] ['a', '/', '.', '.'] = .ok [] ∧
    (.ok [] : Except Err (List (List Char))) ≠ .ok [['d']] ∧
    dirGet cT4 [['d']] ['a'] = .ok [['d'], ['a']] :=
  ⟨rfl, by simp, rfl⟩

/-- C4 (amended): for every node `N` (address `selfA`) and path `P`,
`get(P)` equals `get(P + "/")`; `get(".")` is `N`; `get("a/./b")` equals
`get("a/b")` for separator-free names `a`, `b`; and `get("a/..")` —
`".."` being resolved against `N` itself — equals the PARENT of `N`
(`N` itself when `N` is the root) whenever segment `a` names an existing
child of `N` (directory or not), and fails with "not found" when it
does not. -/
theorem c4_path_normalization (root : VNode) (selfA : List (List Char)) :
    (∀ p, dirGet root selfA (p ++ ['/']) = dirGet root selfA p) ∧
    dirGet root selfA ['.'] = .ok selfA ∧
    (∀ (a b : List Char), '/' ∉ a → '/' ∉ b → b ≠ [] →
      dirGet root selfA (a ++ '/' :: '.' :: '/' :: b) =
        dirGet root selfA (a ++ '/' :: b)) ∧
    (∀ (a : List Char) (dev : Nat) (ctor : Bool) (es : List (List Char × VNode)),
      '/' ∉ a → a ≠ [] → a ≠ ['.'] → a ≠ ['.', '.'] →
      lookupAddr root selfA = some (.dir dev ctor es) →
      (∀ c, findEntry es a = some c →
        dirGet root selfA (a ++ ['/', '.', '.']) = .ok (prevAddr selfA)) ∧
      (findEntry es a = none →
        dirGet root selfA (a ++ ['/', '.', '.']) = .error .notFound)) := by
  refine ⟨?_, rfl, ?_, ?_⟩
  · intro p
    simp only [dirGet, trimSep_snoc_sep]
  · intro a b ha hb hbne
    have h1 : trimSep (a ++ '/' :: '.' :: '/' :: b) = a ++ '/' :: '.' :: '/' :: b := by
      have := trimSep_append_no_sep (a ++ ['/', '.', '/']) b hbne hb
      simpa using this
    have h2 : trimSep (a ++ '/' :: b) = a ++ '/' :: b := by
      have := trimSep_append_no_sep (a ++ ['/']) b hbne hb
      simpa using this
    have h3 : splitSep ('.' :: '/' :: b) = ['.'] :: splitSep b := rfl
    simp only [dirGet, h1, h2, splitSep_sep_append _ _ ha, h3]
    have := dirGetSegs_skip_dot root selfA [a] selfA (splitSep b)
    simpa using this
  · intro a dev ctor es ha ha0 had hadd hsa
    have h1 : trimSep (a ++ ['/', '.', '.']) = a ++ ['/', '.', '.'] := by
      have := trimSep_append_no_sep (a ++ ['/']) ['.', '.'] (by decide) (by decide)
      simpa using this
    have h2 : splitSep (a ++ ['/', '.', '.']) = [a, ['.', '.']] := by
      have := splitSep_sep_append a ['.', '.'] ha
      simpa using this
    have hno : ¬ (a = [] ∨ a = ['.']) := by
      simp [ha0, had]
    constructor
    · intro c hc
      simp only [dirGet, h1, h2, dirGetSegs, if_neg hno, if_neg hadd, hsa, hc]
      simp
    · intro hc
      simp only [dirGet, h1, h2, dirGetSegs, if_neg hno, if_neg hadd, hsa, hc]

theorem c4_path_normalization_witness :
    dirGet cT4 [['d']] ['a', '/'] = dirGet cT4 [['d']] ['a'] ∧
    dirGet cT4 [['d']] ['a', '/', '.', '/', 'a'] =
      dirGet cT4 [['d']] ['a', '/', 'a'] ∧
    dirGet cT4 [['d']] ['z', '/', '.', '.'] = .error .notFound :=
  ⟨(c4_path_normalization cT4 [['d']]).1 ['a'],
   (c4_path_normalization cT4 [['d']]).2.2.1 ['a'] ['a'] (by decide) (by decide)
     (by decide),
   ((c4_path_normalization cT4 [['d']]).2.2.2 ['z'] 0 true
     [(['a'], .file 0 [])] (by decide) (by decide) (by decide) (by decide) rfl).2 rfl⟩

theorem openFileGo_no_sep (root : VNode) (selfA : List (List Char))
    (p : List Char) (of : OFl) (rd wr : Bool) (hp : '/' ∉ p) :
    openFileGo root selfA p of rd wr = openFileFinal root selfA p of rd wr := by
  rw [openFileGo, splitSep_no_sep p hp]
  rfl

def cT9 : VNode := .dir 0 true [(['d'], .dir 0 true [(['x'], .file 0 [])]), (['f'], .file 0 [1])]

/-- C9: `open_file` accepts exactly the eight open-flag bitsets
`{∅, CREATE, DIRECTORY, TRUNCATE, CREATE|DIRECTORY, CREATE|EXCLUSIVE,
CREATE|TRUNCATE, CREATE|DIRECTORY|EXCLUSIVE}`: a final segment opened
with any other bitset yields invalid argument whatever the tree, the
handle, the segment and the permissions; TRUNCATE with `write = false`
yields invalid argument even for accepted bitsets; and each of the
eight bitsets succeeds on a suitable concrete call. -/
theorem c9_open_flag_acceptance :
    (∀ (root : VNode) (selfA : List (List Char)) (path : List Char) (of : OFl)
      (rd wr : Bool), of ∉ valid8 → '/' ∉ path →
      openFileGo root selfA path of rd wr = .error .inval) ∧
    (∀ (root : VNode) (selfA : List (List Char)) (path : List Char) (of : OFl)
      (rd : Bool), of ∈ valid8 → of.trunc = true → '/' ∉ path →
      openFileGo root selfA path of rd false = .error .inval) ∧
    (openFileGo cT9 [] ['f'] ⟨false, false, false, false⟩ true false
      = .ok (⟨[['f']], true, false⟩, cT9)) ∧
    (openFileGo cT9 [] ['g'] ⟨true, false, false, false⟩ true true
      = .ok (⟨[['g']], true, true⟩, .dir 0 true
          [(['d'], .dir 0 true [(['x'], .file 0 [])]), (['f'], .file 0 [1]),
           (['g'], .file 0 [])])) ∧
    (openFileGo cT9 [] ['d'] ⟨false, true, false, false⟩ true false
      = .ok (⟨[['d']], true, false⟩, cT9)) ∧
    (openFileGo cT9 [] ['f'] ⟨false, false, false, true⟩ true true
      = .ok (⟨[['f']], false, true⟩, .dir 0 true
          [(['d'], .dir 0 true [(['x'], .file 0 [])]), (['f'], .file 0 [])])) ∧
    (openFileGo cT9 [] ['g'] ⟨true, true, false, false⟩ true true
      = .ok (⟨[['g']], true, true⟩, .dir 0 true
          [(['d'], .dir 0 true [(['x'], .file 0 [])]), (['f'], .file 0 [1]),
           (['g'], .dir 0 true [])])) ∧
    (openFileGo cT9 [] ['g'] ⟨true, false, true, false⟩ true true
      = .ok (⟨[['g']], true, true⟩, .dir 0 true
          [(['d'], .dir 0 true [(['x'], .file 0 [])]), (['f'], .file 0 [1]),
           (['g'], .file 0 [])])) ∧
    (openFileGo cT9 [] ['g'] ⟨true, false, false, true⟩ true true
      = .ok (⟨[['g']], true, true⟩, .dir 0 true
          [(['d'], .dir 0 true [(['x'], .file 0 [])]), (['f'], .file 0 [1]),
           (['g'], .file 0 [])])) ∧
    (openFileGo cT9 [] ['g'] ⟨true, true, true, false⟩ true true
      = .ok (⟨[['g']], true, true⟩, .dir 0 true
          [(['d'], .dir 0 true [(['x'], .file 0 [])]), (['f'], .file 0 [1]),
           (['g'], .dir 0 true [])])) := by
  refine ⟨?_, ?_, rfl, rfl, rfl, rfl, rfl, rfl, rfl, rfl⟩
  · intro root selfA path of rd wr h hp
    rw [openFileGo_no_sep root selfA path of rd wr hp]
    simp [openFileFinal, h]
  · intro root selfA path of rd h htr hp
    rw [openFileGo_no_sep root selfA path of rd false hp]
    simp [openFileFinal, h, htr]

theorem c9_open_flag_acceptance_witness :
    openFileGo cT9 [] ['f'] ⟨false, false, true, false⟩ true true = .error .inval ∧
    openFileGo cT9 [] ['f'] ⟨false, false, false, true⟩ true false = .error .inval :=
  ⟨c9_open_flag_acceptance.1 cT9 [] ['f'] ⟨false, false, true, false⟩ true true
      (by decide) (by decide),
   c9_open_flag_acceptance.2.1 cT9 [] ['f'] ⟨false, false, false, true⟩ true
      (by decide) rfl (by decide)⟩

def cT5 : VNode := .dir 0 true []

/-- C5 counterexample: with the accepted bitset CREATE|EXCLUSIVE and
final segment `""` (reachable as the trailing-slash remainder of a path
like `"d/"`), `open_file` opens the directory itself as a file handle
instead of failing with "exists": in the source match only the literal
segment `"."` is guarded by the EXCLUSIVE and TRUNCATE arms, and `""`
falls through to the `"." | ""` arm.  Moreover EXCLUSIVE without CREATE
is rejected by flag validation as invalid argument, not "exists". -/
theorem c5_empty_segment_counterexample :
    openFileGo cT5 [] [] ⟨true, false, true, false⟩ true true
      = .ok (⟨[], true, true⟩, cT5) ∧
    openFileGo cT5 [] [] ⟨true, false, true, false⟩ true true ≠ .error .exist ∧
    openFileGo cT5 [] ['.'] ⟨false, false, true, false⟩ true true = .error .inval ∧
    (.error .inval : Except Err (OpenRes × VNode)) ≠ .error .exist :=
  ⟨rfl, fun h => Except.noConfusion h, rfl, by simp⟩

/-- C5 (amended): for an accepted flag bitset (with write set whenever
TRUNCATE is set), final segment `"."`: EXCLUSIVE yields "exists",
TRUNCATE yields the reserved io error, otherwise the directory itself is
opened as a file handle; final segment `""`: the directory itself is
opened as a file handle regardless of EXCLUSIVE or TRUNCATE; final
segment `".."`: EXCLUSIVE yields "exists", TRUNCATE yields io, otherwise
the parent is opened as a file handle. -/
theorem c5_open_final_dot_segments (root : VNode) (selfA : List (List Char))
    (of : OFl) (rd wr : Bool) (hv : of ∈ valid8)
    (hw : of.trunc = true → wr = true) :
    (of.excl = true → openFileGo root selfA ['.'] of rd wr = .error .exist) ∧
    (of.excl = false → of.trunc = true →
      openFileGo root selfA ['.'] of rd wr = .error .io) ∧
    (of.excl = false → of.trunc = false →
      openFileGo root selfA ['.'] of rd wr = .ok (⟨selfA, rd, wr⟩, root)) ∧
    openFileGo root selfA [] of rd wr = .ok (⟨selfA, rd, wr⟩, root) ∧
    (of.excl = true →
      openFileGo root selfA ['.', '.'] of rd wr = .error .exist) ∧
    (of.excl = false → of.trunc = true →
      openFileGo root selfA ['.', '.'] of rd wr = .error .io) ∧
    (∀ (dev : Nat) (ctor : Bool) (es : List (List Char × VNode)),
      of.excl = false → of.trunc = false →
      lookupAddr root (prevAddr selfA) = some (.dir dev ctor es) →
      openFileGo root selfA ['.', '.'] of rd wr
        = .ok (⟨prevAddr selfA, rd, wr⟩, root)) := by
  have hntw : (of.trunc && !wr) = false := by
    cases htr : of.trunc with
    | false => simp
    | true => simp [hw htr]
  refine ⟨?_, ?_, ?_, ?_, ?_, ?_, ?_⟩
  · intro he
    rw [openFileGo_no_sep root selfA ['.'] of rd wr (by decide)]
    simp [openFileFinal, hv, hntw, he]
  · intro he htr
    rw [openFileGo_no_sep root selfA ['.'] of rd wr (by decide)]
    simp [openFileFinal, hv, hntw, he, htr, hw htr]
  · intro he htr
    rw [openFileGo_no_sep root selfA ['.'] of rd wr (by decide)]
    simp [openFileFinal, hv, hntw, he, htr]
  · rw [openFileGo_no_sep root selfA [] of rd wr (by decide)]
    simp [openFileFinal, hv, hntw]
  · intro he
    rw [openFileGo_no_sep root selfA ['.', '.'] of rd wr (by decide)]
    simp [openFileFinal, hv, hntw, he]
  · intro he htr
    rw [openFileGo_no_sep root selfA ['.', '.'] of rd wr (by decide)]
    simp [openFileFinal, hv, hntw, he, htr, hw htr]
  · intro dev ctor es he htr hp
    rw [openFileGo_no_sep root selfA ['.', '.'] of rd wr (by decide)]
    simp [openFileFinal, hv, hntw, he, htr, hp, nodeOpenFile]

theorem c5_open_final_dot_segments_witness :
    openFileGo cT9 [['d']] ['.'] ⟨true, false, true, false⟩ true true
      = .error .exist ∧
    openFileGo cT9 [['d']] ['.', '.'] ⟨false, false, false, false⟩ true false
      = .ok (⟨[], true, false⟩, cT9) :=
  ⟨(c5_open_final_dot_segments cT9 [['d']] ⟨true, false, true, false⟩ true true
      (by decide) (by simp)).1 rfl,
   (c5_open_final_dot_segments cT9 [['d']] ⟨false, false, false, false⟩ true false
      (by decide) (by simp)).2.2.2.2.2.2 0 true
      [(['d'], .dir 0 true [(['x'], .file 0 [])]), (['f'], .file 0 [1])]
      rfl rfl rfl⟩
